import Mathlib

/-!
# Verification of the smart-dm telemetry core against its specification

Shallow embedding of the Rust sources of `vehicall-os/smart-dm` and proofs
about them.  Numeric conventions used throughout:

* `f64`/`f32` values are modelled as `ℚ` (exact rational arithmetic); the
  one place where a square root is computed (the z-score normalizer output)
  is modelled over `ℝ` with `Real.sqrt`.
* `Instant`s and durations are modelled as explicit time parameters
  (`ℚ` seconds for the scheduler/batcher, `ℕ` seconds for the alert
  manager, `ℕ` nanoseconds for IMU timestamps), threaded through the state
  transformers exactly where the source calls `Instant::now()` /
  `elapsed()`.
* `&mut self` methods become state transformers `State → args → State`
  (or `State → args → result × State`).
-/

namespace SmartDm

/-! ## Ring buffer (`crates/ring-buffer/src/buffer.rs`)

The sensor frame record from `crates/obd-protocol/src/pid.rs`; integer
fields are kept as `ℕ`/`ℤ` (the claims never exercise wrap-around of the
fixed-width fields). -/

structure SensorFrame where
  timestamp_ms : ℕ
  rpm : ℕ
  speed : ℕ
  coolant_temp : ℤ
  engine_load : ℕ
  maf : ℕ
  fuel_trim_short : ℤ
  fuel_trim_long : ℤ
  o2_voltage : ℕ
  deriving Repr, DecidableEq

def SensorFrame.default : SensorFrame :=
  ⟨0, 0, 0, 0, 0, 0, 0, 0, 0⟩

/-- `RingBuffer`: pre-allocated storage plus head/tail cursors and a
total-written counter (`buffer.rs`).  The atomics are modelled as plain
fields: the claims under verification are about the sequential
single-producer behaviour. -/
structure RingBuffer where
  storage : List SensorFrame
  capacity : ℕ
  head : ℕ
  tail : ℕ
  total_written : ℕ
  deriving Repr

def RingBuffer.new (capacity : ℕ) : RingBuffer :=
  ⟨List.replicate capacity SensorFrame.default, capacity, 0, 0, 0⟩

/-- `RingBuffer::push`: write at `head`, advance `head` modulo the
capacity, bump `total_written`, and advance `tail` when the buffer just
became full. -/
def RingBuffer.push (b : RingBuffer) (frame : SensorFrame) : RingBuffer :=
  let head := b.head
  let next_head := (head + 1) % b.capacity
  let storage := b.storage.set head frame
  let tail := b.tail
  if next_head = tail then
    { b with storage := storage, head := next_head,
             total_written := b.total_written + 1,
             tail := (tail + 1) % b.capacity }
  else
    { b with storage := storage, head := next_head,
             total_written := b.total_written + 1 }

/-- `RingBuffer::len`. -/
def RingBuffer.len (b : RingBuffer) : ℕ :=
  if b.head ≥ b.tail then b.head - b.tail
  else b.capacity - b.tail + b.head

/-- Push a whole sequence of frames, oldest first. -/
def RingBuffer.pushAll (b : RingBuffer) (frames : List SensorFrame) : RingBuffer :=
  frames.foldl RingBuffer.push b

/-! ## OBD-II PID decoding (`crates/obd-protocol/src/pid.rs`) -/

/-- `PidResponse::decode_value`: the per-PID decoding formulas.  Raw bytes
are `u8` values modelled as `ℕ`; the decoded `f64` is modelled as `ℚ`.
Every guard of the Rust `match` (PID code plus minimum payload length) is
reproduced; the final `_ => 0.0` arm is the trailing `else`. -/
def decode_value (pid : ℕ) (bytes : List ℕ) : ℚ :=
  if pid = 0x0C ∧ 2 ≤ bytes.length then
    ((bytes.getD 0 0 : ℚ) * 256 + (bytes.getD 1 0 : ℚ)) / 4
  else if pid = 0x0D ∧ bytes ≠ [] then (bytes.getD 0 0 : ℚ)
  else if pid = 0x05 ∧ bytes ≠ [] then (bytes.getD 0 0 : ℚ) - 40
  else if pid = 0x04 ∧ bytes ≠ [] then (bytes.getD 0 0 : ℚ) * 100 / 255
  else if pid = 0x10 ∧ 2 ≤ bytes.length then
    ((bytes.getD 0 0 : ℚ) * 256 + (bytes.getD 1 0 : ℚ)) / 100
  else if (pid = 0x06 ∨ pid = 0x07) ∧ bytes ≠ [] then
    ((bytes.getD 0 0 : ℚ) - 128) * 100 / 128
  else if pid = 0x14 ∧ bytes ≠ [] then (bytes.getD 0 0 : ℚ) / 200
  else if pid = 0x0B ∧ bytes ≠ [] then (bytes.getD 0 0 : ℚ)
  else if pid = 0x11 ∧ bytes ≠ [] then (bytes.getD 0 0 : ℚ) * 100 / 255
  else 0

/-- The PID codes that `decode_value` recognizes (the `match` arms other
than the default). -/
def recognizedPids : List ℕ :=
  [0x0C, 0x0D, 0x05, 0x04, 0x10, 0x06, 0x07, 0x14, 0x0B, 0x11]

/-- Number of payload bytes each recognized PID's decoding formula
consumes (the length bound in the corresponding guard). -/
def requiredBytes (pid : ℕ) : ℕ :=
  if pid = 0x0C ∨ pid = 0x10 then 2 else 1

end SmartDm

namespace SmartDm

/-- Invariant maintained by the ring-buffer cursors. -/
def RingBuffer.cursorsOk (b : RingBuffer) : Prop :=
  b.head < b.capacity ∧ b.tail < b.capacity

lemma RingBuffer.push_cursorsOk {b : RingBuffer} (h : b.cursorsOk)
    (frame : SensorFrame) : (b.push frame).cursorsOk := by
  obtain ⟨hh, ht⟩ := h
  have hcap : 0 < b.capacity := Nat.lt_of_le_of_lt (Nat.zero_le _) hh
  unfold RingBuffer.push
  dsimp only
  split <;>
    exact ⟨Nat.mod_lt _ hcap, by simp_all [Nat.mod_lt, cursorsOk]⟩

lemma RingBuffer.push_capacity (b : RingBuffer) (frame : SensorFrame) :
    (b.push frame).capacity = b.capacity := by
  unfold RingBuffer.push; dsimp only; split <;> rfl

lemma RingBuffer.push_total_written (b : RingBuffer) (frame : SensorFrame) :
    (b.push frame).total_written = b.total_written + 1 := by
  unfold RingBuffer.push; dsimp only; split <;> rfl

lemma RingBuffer.len_le_of_cursorsOk {b : RingBuffer} (h : b.cursorsOk) :
    b.len ≤ b.capacity - 1 := by
  obtain ⟨hh, ht⟩ := h
  unfold RingBuffer.len
  split <;> omega

lemma RingBuffer.pushAll_props {b : RingBuffer} (h : b.cursorsOk)
    (frames : List SensorFrame) :
    (b.pushAll frames).cursorsOk ∧
      (b.pushAll frames).capacity = b.capacity ∧
      (b.pushAll frames).total_written = b.total_written + frames.length := by
  induction frames generalizing b with
  | nil => simpa [RingBuffer.pushAll] using h
  | cons f fs ih =>
      have h' := RingBuffer.push_cursorsOk h f
      have := ih h'
      simp only [RingBuffer.pushAll, List.foldl_cons] at this ⊢
      refine ⟨this.1, ?_, ?_⟩
      · rw [this.2.1, RingBuffer.push_capacity]
      · rw [this.2.2, RingBuffer.push_total_written, List.length_cons]; ring

/-- **C7.** For every capacity `N ≥ 1` and every push sequence, the buffer
holds at most `N − 1` elements (`len ∈ [0, N−1]`, the empty-sentinel slot
stays reserved) and `total_written` counts exactly the pushes.  Since the
sequence of frames is universally quantified, the bound holds at every
intermediate point of any longer run. -/
theorem ringBuffer_len_bound_total_written
    (N : ℕ) (hN : 1 ≤ N) (frames : List SensorFrame) :
    ((RingBuffer.new N).pushAll frames).len ≤ N - 1 ∧
      ((RingBuffer.new N).pushAll frames).total_written = frames.length := by
  have h0 : (RingBuffer.new N).cursorsOk := by
    constructor <;> simpa [RingBuffer.new] using hN
  obtain ⟨hinv, hcap, htot⟩ := RingBuffer.pushAll_props h0 frames
  refine ⟨?_, by simpa [RingBuffer.new] using htot⟩
  have := RingBuffer.len_le_of_cursorsOk hinv
  rwa [hcap] at this

/-- Witness for C7: three pushes into a capacity-3 buffer leave at most
two elements and `total_written = 3`. -/
theorem ringBuffer_len_bound_total_written_witness :
    ((RingBuffer.new 3).pushAll
        [SensorFrame.default, SensorFrame.default, SensorFrame.default]).len ≤ 3 - 1 ∧
      ((RingBuffer.new 3).pushAll
        [SensorFrame.default, SensorFrame.default, SensorFrame.default]).total_written = 3 :=
  ringBuffer_len_bound_total_written 3 (by decide)
    [SensorFrame.default, SensorFrame.default, SensorFrame.default]

/-- **C10.** `PidResponse::decode` is total by construction (it always
builds a response), and `decode_value` yields exactly `0` whenever the PID
code is not recognized or the payload is shorter than the PID's decoding
formula requires. -/
theorem decode_value_unrecognized_or_short_eq_zero
    (pid : ℕ) (bytes : List ℕ)
    (h : pid ∉ recognizedPids ∨ bytes.length < requiredBytes pid) :
    decode_value pid bytes = 0 := by
  unfold decode_value
  split_ifs with h1 h2 h3 h4 h5 h6 h7 h8 h9
  · exfalso; obtain ⟨hp, hl⟩ := h1; subst hp
    rcases h with h | h
    · exact h (by decide)
    · rw [(by decide : requiredBytes 0x0C = 2)] at h; omega
  · exfalso; obtain ⟨hp, hl⟩ := h2; subst hp
    have h0 : 0 < bytes.length := List.length_pos.mpr hl
    rcases h with h | h
    · exact h (by decide)
    · rw [(by decide : requiredBytes 0x0D = 1)] at h; omega
  · exfalso; obtain ⟨hp, hl⟩ := h3; subst hp
    have h0 : 0 < bytes.length := List.length_pos.mpr hl
    rcases h with h | h
    · exact h (by decide)
    · rw [(by decide : requiredBytes 0x05 = 1)] at h; omega
  · exfalso; obtain ⟨hp, hl⟩ := h4; subst hp
    have h0 : 0 < bytes.length := List.length_pos.mpr hl
    rcases h with h | h
    · exact h (by decide)
    · rw [(by decide : requiredBytes 0x04 = 1)] at h; omega
  · exfalso; obtain ⟨hp, hl⟩ := h5; subst hp
    rcases h with h | h
    · exact h (by decide)
    · rw [(by decide : requiredBytes 0x10 = 2)] at h; omega
  · exfalso; obtain ⟨hp, hl⟩ := h6
    have h0 : 0 < bytes.length := List.length_pos.mpr hl
    rcases hp with hp | hp <;> subst hp <;> rcases h with h | h
    · exact h (by decide)
    · rw [(by decide : requiredBytes 0x06 = 1)] at h; omega
    · exact h (by decide)
    · rw [(by decide : requiredBytes 0x07 = 1)] at h; omega
  · exfalso; obtain ⟨hp, hl⟩ := h7; subst hp
    have h0 : 0 < bytes.length := List.length_pos.mpr hl
    rcases h with h | h
    · exact h (by decide)
    · rw [(by decide : requiredBytes 0x14 = 1)] at h; omega
  · exfalso; obtain ⟨hp, hl⟩ := h8; subst hp
    have h0 : 0 < bytes.length := List.length_pos.mpr hl
    rcases h with h | h
    · exact h (by decide)
    · rw [(by decide : requiredBytes 0x0B = 1)] at h; omega
  · exfalso; obtain ⟨hp, hl⟩ := h9; subst hp
    have h0 : 0 < bytes.length := List.length_pos.mpr hl
    rcases h with h | h
    · exact h (by decide)
    · rw [(by decide : requiredBytes 0x11 = 1)] at h; omega
  · rfl

/-- Witness for C10: an unrecognized PID (`0xFF`) and a recognized PID
(`0x0C`, RPM) with a too-short payload both decode to `0`. -/
theorem decode_value_unrecognized_or_short_eq_zero_witness :
    decode_value 0xFF [1, 2] = 0 ∧ decode_value 0x0C [26] = 0 :=
  ⟨decode_value_unrecognized_or_short_eq_zero 0xFF [1, 2] (Or.inl (by decide)),
   decode_value_unrecognized_or_short_eq_zero 0x0C [26] (Or.inr (by decide))⟩



/-! ## Alert manager (`crates/alerting/src/manager.rs`)

`Instant`s are modelled as `ℕ` seconds passed explicitly as `now`
arguments; `Instant::elapsed()` becomes truncated subtraction `now - t`
(call times are non-decreasing in every scenario considered, matching the
monotonic clock).  The `HashMap<String, AlertState>` is modelled as an
association list keyed by the fault label. -/

structure AlertConfig where
  confidence_threshold : ℚ
  critical_threshold : ℚ
  cooldown_seconds : ℕ
  max_alerts_per_hour : ℕ
  deriving Repr, DecidableEq

def AlertConfig.default : AlertConfig :=
  ⟨mkRat 3 4, mkRat 9 10, 1800, 10⟩

structure AlertState where
  last_fired : ℕ
  fire_count : ℕ
  acknowledged : Bool
  deriving Repr, DecidableEq

structure AlertManager where
  config : AlertConfig
  states : List (String × AlertState)
  hourly_count : ℕ
  hour_start : ℕ
  deriving Repr

/-- `AlertManager::new` (`hour_start = Instant::now()`, here the creation
time `now`). -/
def AlertManager.new (config : AlertConfig) (now : ℕ) : AlertManager :=
  ⟨config, [], 0, now⟩

/-- The "reset hourly counter if needed" block at the top of
`should_fire`. -/
def AlertManager.resetHourIfNeeded (m : AlertManager) (now : ℕ) : AlertManager :=
  if now - m.hour_start > 3600
  then { m with hourly_count := 0, hour_start := now } else m

/-- `AlertManager::should_fire`.  Returns the decision together with the
(possibly mutated) manager: the hourly window is reset in place when more
than 3600 s have elapsed since `hour_start`. -/
def AlertManager.should_fire (m : AlertManager) (fault_type : String)
    (confidence : ℚ) (now : ℕ) : Bool × AlertManager :=
  if confidence < m.config.confidence_threshold then (false, m)
  else
    let m := m.resetHourIfNeeded now
    if m.hourly_count ≥ m.config.max_alerts_per_hour then (false, m)
    else
      match m.states.lookup fault_type with
      | some state =>
          if now - state.last_fired < m.config.cooldown_seconds
          then (false, m) else (true, m)
      | none => (true, m)

/-- The `states.entry(..).or_insert(..)` + field updates performed by
`record_fire`: the first entry with the given key is updated
(`last_fired := now`, `fire_count += 1`, `acknowledged := false`); an
absent key is inserted with `fire_count = 1`. -/
def fireUpdate : List (String × AlertState) → String → ℕ → List (String × AlertState)
  | [], fault_type, now => [(fault_type, ⟨now, 1, false⟩)]
  | (k, st) :: rest, fault_type, now =>
      if k = fault_type then
        (k, ⟨now, st.fire_count + 1, false⟩) :: rest
      else
        (k, st) :: fireUpdate rest fault_type now

/-- `AlertManager::record_fire`. -/
def AlertManager.record_fire (m : AlertManager) (fault_type : String)
    (now : ℕ) : AlertManager :=
  { m with hourly_count := m.hourly_count + 1,
           states := fireUpdate m.states fault_type now }

/-- `states.get_mut(fault_type)` + `state.acknowledged = true`: set the
flag on the first entry with the given key. -/
def ackUpdate : List (String × AlertState) → String → List (String × AlertState)
  | [], _ => []
  | (k, st) :: rest, fault_type =>
      if k = fault_type then
        (k, ⟨st.last_fired, st.fire_count, true⟩) :: rest
      else
        (k, st) :: ackUpdate rest fault_type

/-- `AlertManager::acknowledge`. -/
def AlertManager.acknowledge (m : AlertManager) (fault_type : String) :
    Bool × AlertManager :=
  match m.states.lookup fault_type with
  | some _ => (true, { m with states := ackUpdate m.states fault_type })
  | none => (false, m)

/-- `AlertManager::get_pending`: the unacknowledged entries. -/
def AlertManager.get_pending (m : AlertManager) : List (String × AlertState) :=
  m.states.filter (fun p => p.2.acknowledged = false)

/-- One caller step following the `should_fire`/`record_fire` protocol: ask
`should_fire`; on `true`, `record_fire` with the same label and time.
Returns the new manager and `some now` when the alert fired. -/
def alertStep (m : AlertManager) (ev : ℕ × String × ℚ) :
    AlertManager × Option ℕ :=
  let (now, label, conf) := ev
  let (ok, m') := m.should_fire label conf now
  if ok then (m'.record_fire label now, some now) else (m', none)

/-- Run a whole call sequence, collecting the times of the fired alerts. -/
def alertRun (m : AlertManager) : List (ℕ × String × ℚ) → AlertManager × List ℕ
  | [] => (m, [])
  | ev :: evs =>
      let (m', fired) := alertStep m ev
      let (m'', rest) := alertRun m' evs
      (m'', match fired with | some t => t :: rest | none => rest)

/-- Number of fire times inside the sliding 3600-s window `(t, t + 3600]`. -/
def firesWithin (fires : List ℕ) (t : ℕ) : ℕ :=
  (fires.filter (fun x => t < x ∧ x ≤ t + 3600)).length

lemma fireUpdate_mem_false (states : List (String × AlertState))
    (label : String) (now : ℕ) :
    ∃ st, (fireUpdate states label now).lookup label = some st ∧
      st.acknowledged = false ∧ (label, st) ∈ fireUpdate states label now := by
  induction states with
  | nil =>
      exact ⟨⟨now, 1, false⟩, by simp [fireUpdate, List.lookup], rfl, by simp [fireUpdate]⟩
  | cons p rest ih =>
      obtain ⟨k, s⟩ := p
      by_cases hk : k = label
      · subst hk
        refine ⟨⟨now, s.fire_count + 1, false⟩, ?_, rfl, ?_⟩
        · simp [fireUpdate, List.lookup]
        · simp [fireUpdate]
      · obtain ⟨st, hl, ha, hm⟩ := ih
        refine ⟨st, ?_, ha, ?_⟩
        · have hb : (label == k) = false := beq_eq_false_iff_ne.mpr (Ne.symm hk)
          simpa [fireUpdate, hk, List.lookup, hb] using hl
        · simp [fireUpdate, hk, hm]

/-- **C9.** `record_fire(label)` always leaves the label's state with
`acknowledged = false` (clearing any earlier `acknowledge`), so the label
reappears among the pending (unacknowledged) alerts. -/
theorem record_fire_clears_acknowledged (m : AlertManager)
    (fault_type : String) (now : ℕ) :
    ∃ st, (m.record_fire fault_type now).states.lookup fault_type = some st ∧
      st.acknowledged = false ∧
      (fault_type, st) ∈ (m.record_fire fault_type now).get_pending := by
  obtain ⟨st, hl, ha, hm⟩ := fireUpdate_mem_false m.states fault_type now
  refine ⟨st, hl, ha, ?_⟩
  exact List.mem_filter.mpr ⟨hm, by simp [ha]⟩

lemma resetHour_config (m : AlertManager) (now : ℕ) :
    (m.resetHourIfNeeded now).config = m.config := by
  unfold AlertManager.resetHourIfNeeded; split <;> rfl

lemma resetHour_count {m : AlertManager} (now : ℕ)
    (h : m.hourly_count ≤ m.config.max_alerts_per_hour) :
    (m.resetHourIfNeeded now).hourly_count ≤ m.config.max_alerts_per_hour := by
  unfold AlertManager.resetHourIfNeeded
  split
  · exact Nat.zero_le _
  · exact h

lemma should_fire_snd (m : AlertManager) (label : String) (conf : ℚ) (now : ℕ) :
    (m.should_fire label conf now).2 = m ∨
      (m.should_fire label conf now).2 = m.resetHourIfNeeded now := by
  unfold AlertManager.should_fire
  dsimp only
  split_ifs
  · exact Or.inl rfl
  · exact Or.inr rfl
  · rcases hl : List.lookup label (m.resetHourIfNeeded now).states with _ | st <;>
      simp only [hl]
    · exact Or.inr trivial
    · split_ifs <;> first | exact Or.inr trivial | exact Or.inr rfl

lemma should_fire_true_count {m m' : AlertManager} {label : String} {conf : ℚ}
    {now : ℕ} (h : m.should_fire label conf now = (true, m')) :
    m'.hourly_count < m'.config.max_alerts_per_hour := by
  unfold AlertManager.should_fire at h
  dsimp only at h
  split_ifs at h with h1 h2
  · exact absurd (congrArg Prod.fst h) (by simp)
  · exact absurd (congrArg Prod.fst h) (by simp)
  · rcases hl : List.lookup label (m.resetHourIfNeeded now).states with _ | st <;>
      simp only [hl] at h
    · obtain ⟨-, rfl⟩ := Prod.mk.injEq .. ▸ h
      exact Nat.lt_of_not_le h2
    · split_ifs at h
      · exact absurd (congrArg Prod.fst h) (by simp)
      · obtain ⟨-, rfl⟩ := Prod.mk.injEq .. ▸ h
        exact Nat.lt_of_not_le h2

lemma alertStep_inv {m : AlertManager}
    (h : m.hourly_count ≤ m.config.max_alerts_per_hour) (ev : ℕ × String × ℚ) :
    (alertStep m ev).1.config = m.config ∧
      (alertStep m ev).1.hourly_count ≤ m.config.max_alerts_per_hour := by
  obtain ⟨now, label, conf⟩ := ev
  unfold alertStep
  dsimp only
  have hsnd := should_fire_snd m label conf now
  have hcfg : (m.should_fire label conf now).2.config = m.config := by
    rcases hsnd with hs | hs
    · rw [hs]
    · rw [hs, resetHour_config]
  have hcnt : (m.should_fire label conf now).2.hourly_count ≤
      m.config.max_alerts_per_hour := by
    rcases hsnd with hs | hs
    · rw [hs]; exact h
    · rw [hs]; exact resetHour_count now h
  split_ifs with hfire
  · have hpair : m.should_fire label conf now =
        (true, (m.should_fire label conf now).2) := by rw [← hfire]
    have hlt := should_fire_true_count hpair
    rw [hcfg] at hlt
    unfold AlertManager.record_fire
    exact ⟨hcfg, by dsimp only; omega⟩
  · exact ⟨hcfg, hcnt⟩

lemma alertRun_inv (trace : List (ℕ × String × ℚ)) (m : AlertManager)
    (h : m.hourly_count ≤ m.config.max_alerts_per_hour) :
    (alertRun m trace).1.config = m.config ∧
      (alertRun m trace).1.hourly_count ≤ m.config.max_alerts_per_hour := by
  induction trace generalizing m with
  | nil => exact ⟨rfl, h⟩
  | cons ev evs ih =>
      obtain ⟨hcfg, hcnt⟩ := alertStep_inv h ev
      have := ih (alertStep m ev).1 (hcfg ▸ hcnt)
      simp only [alertRun]
      rw [hcfg] at this
      exact this

/-- **C3 (amended).** Along every call sequence that follows the
`should_fire`/`record_fire` protocol, the manager's hourly fire counter —
the number of fires recorded in its current reset-based hourly window —
never exceeds `max_alerts_per_hour`.  (The window is a fixed window that
is reset when more than 3600 s have elapsed since its start, not a sliding
window; see the counterexample for the sliding-window reading.)  Because
`trace` is universally quantified, the bound holds at every intermediate
point of any longer run. -/
theorem alertManager_hourly_cap_reset_window (cfg : AlertConfig) (t0 : ℕ)
    (trace : List (ℕ × String × ℚ)) :
    (alertRun (AlertManager.new cfg t0) trace).1.hourly_count ≤
      cfg.max_alerts_per_hour := by
  have h0 : (AlertManager.new cfg t0).hourly_count ≤
      (AlertManager.new cfg t0).config.max_alerts_per_hour := Nat.zero_le _
  exact (alertRun_inv trace _ h0).2

/-- A call sequence (with the default configuration, manager created at
`t = 0`): ten distinct labels fire at 3590 s–3599 s, the hourly window is
reset at 3601 s, and ten more labels fire at 3601 s–3610 s. -/
def traceC3 : List (ℕ × String × ℚ) :=
  [(3590, "f0", 1), (3591, "f1", 1), (3592, "f2", 1), (3593, "f3", 1),
   (3594, "f4", 1), (3595, "f5", 1), (3596, "f6", 1), (3597, "f7", 1),
   (3598, "f8", 1), (3599, "f9", 1),
   (3601, "g0", 1), (3602, "g1", 1), (3603, "g2", 1), (3604, "g3", 1),
   (3605, "g4", 1), (3606, "g5", 1), (3607, "g6", 1), (3608, "g7", 1),
   (3609, "g8", 1), (3610, "g9", 1)]

/-- **C3 (counterexample).** Under the default configuration
(`max_alerts_per_hour = 10`) the trace `traceC3` fires twenty alerts whose
fire times all lie inside the single sliding 3600-s window `(10, 3610]`:
the claimed bound `≤ max_alerts_per_hour` fails for sliding windows,
because the throttle window is reset-based. -/
theorem alertManager_sliding_window_counterexample :
    firesWithin (alertRun (AlertManager.new AlertConfig.default 0) traceC3).2 10 = 20 ∧
      ¬ (firesWithin (alertRun (AlertManager.new AlertConfig.default 0) traceC3).2 10 ≤
          AlertConfig.default.max_alerts_per_hour) := by
  constructor <;> decide

/-! ## Diagnostics scheduler (`crates/obd-scheduler/src/scheduler.rs`)

`Instant`s are `ℚ` seconds, passed as explicit `now` arguments at the
points where the source calls `Instant::now()`.  The frame channel and the
shared current frame are not modelled: the claims under verification are
about rates and `next_query` times. -/

inductive Pid where
  | Rpm | Speed | CoolantTemp | EngineLoad | Maf
  | ShortFuelTrim | LongFuelTrim | O2Voltage
  | IntakeManifoldPressure | ThrottlePosition
  deriving Repr, DecidableEq

/-- `Pid::as_hex` (the `#[repr(u8)]` discriminants). -/
def Pid.as_hex : Pid → ℕ
  | .Rpm => 0x0C
  | .Speed => 0x0D
  | .CoolantTemp => 0x05
  | .EngineLoad => 0x04
  | .Maf => 0x10
  | .ShortFuelTrim => 0x06
  | .LongFuelTrim => 0x07
  | .O2Voltage => 0x14
  | .IntakeManifoldPressure => 0x0B
  | .ThrottlePosition => 0x11

/-- `Pid::response_bytes`. -/
def Pid.response_bytes : Pid → ℕ
  | .Rpm | .Maf | .O2Voltage => 2
  | _ => 1

/-- `Pid::sampling_priority`. -/
def Pid.sampling_priority : Pid → ℕ
  | .Rpm | .Speed | .CoolantTemp | .EngineLoad => 10
  | .Maf => 5
  | _ => 2

structure SchedulerConfig where
  base_rate_hz : ℚ
  max_retries : ℕ
  retry_backoff_ms : ℕ
  coolant_boost_threshold : ℚ
  boost_multiplier : ℚ
  deriving Repr, DecidableEq

def SchedulerConfig.default : SchedulerConfig :=
  ⟨5, 3, 100, 95, 2⟩

structure ScheduledPid where
  pid : Pid
  rate_hz : ℚ
  next_query : ℚ
  priority : ℕ
  failures : ℕ
  deriving Repr, DecidableEq

/-- `ScheduledPid::new` (`next_query = Instant::now()`). -/
def ScheduledPid.new (pid : Pid) (rate_hz : ℚ) (now : ℚ) : ScheduledPid :=
  ⟨pid, rate_hz, now, pid.sampling_priority, 0⟩

/-- `ScheduledPid::interval`. -/
def ScheduledPid.interval (sp : ScheduledPid) : ℚ :=
  1 / sp.rate_hz

/-- `ScheduledPid::schedule_next` (`next_query = Instant::now() + interval`). -/
def ScheduledPid.schedule_next (sp : ScheduledPid) (now : ℚ) : ScheduledPid :=
  { sp with next_query := now + sp.interval }

/-- The `BinaryHeap` pop order of `ScheduledPid` (`Ord` impl, reversed for
min-heap behaviour): earliest `next_query` first, ties broken by higher
priority. -/
def spBefore (a b : ScheduledPid) : Prop :=
  a.next_query < b.next_query ∨
    (a.next_query = b.next_query ∧ b.priority ≤ a.priority)

instance (a b : ScheduledPid) : Decidable (spBefore a b) := by
  unfold spBefore; infer_instance

/-- `BinaryHeap::pop`, on the queue modelled as a list: remove an element
that is minimal in the pop order, returning it and the remaining queue. -/
def popMin : List ScheduledPid → Option (ScheduledPid × List ScheduledPid)
  | [] => none
  | x :: xs =>
      match popMin xs with
      | none => some (x, [])
      | some (m, r) => if spBefore x m then some (x, xs) else some (m, x :: r)

structure PidScheduler where
  queue : List ScheduledPid
  config : SchedulerConfig
  running : Bool
  last_coolant_temp : ℚ
  deriving Repr

/-- `PidScheduler::new`: the default PID set at its default rates. -/
def PidScheduler.new (config : SchedulerConfig) (now : ℚ) : PidScheduler :=
  ⟨[ScheduledPid.new .Rpm config.base_rate_hz now,
    ScheduledPid.new .Speed config.base_rate_hz now,
    ScheduledPid.new .CoolantTemp config.base_rate_hz now,
    ScheduledPid.new .EngineLoad config.base_rate_hz now,
    ScheduledPid.new .Maf 1 now,
    ScheduledPid.new .ShortFuelTrim (1/2) now,
    ScheduledPid.new .LongFuelTrim (1/2) now,
    ScheduledPid.new .O2Voltage (1/2) now],
   config, false, 0⟩

/-- Outcome of `client.query_pid` for one iteration of the run loop. -/
inductive QueryResult where
  | ok (value : ℚ)
  | err
  deriving Repr, DecidableEq

/-- The body of `PidScheduler::run` for one popped entry (scheduler.rs,
`run`): on success reset `failures`, remember/boost the coolant rate when
the popped PID is the coolant PID, then `schedule_next`; on failure bump
`failures` and still `schedule_next`.  Returns the rescheduled entry and
the updated `last_coolant_temp`. -/
def processPopped (cfg : SchedulerConfig) (last_coolant : ℚ)
    (sp : ScheduledPid) (res : QueryResult) (now : ℚ) : ScheduledPid × ℚ :=
  match res with
  | .ok v =>
      let sp := { sp with failures := 0 }
      let (sp, lc) :=
        if sp.pid = .CoolantTemp then
          (if v > cfg.coolant_boost_threshold
           then { sp with rate_hz := cfg.base_rate_hz * cfg.boost_multiplier }
           else sp,
           v)
        else (sp, last_coolant)
      (sp.schedule_next now, lc)
  | .err =>
      (({ sp with failures := sp.failures + 1 }).schedule_next now, last_coolant)

/-- One iteration of the `PidScheduler::run` loop: pop the due entry,
process the query result, push the rescheduled entry back. -/
def PidScheduler.step (s : PidScheduler) (res : QueryResult) (now : ℚ) :
    PidScheduler :=
  match popMin s.queue with
  | none => s
  | some (sp, rest) =>
      let pr := processPopped s.config s.last_coolant_temp sp res now
      { s with queue := pr.1 :: rest, last_coolant_temp := pr.2 }

/-- The coolant entry as created by `PidScheduler::new` (base rate, due at
creation time `0`). -/
def coolantSp : ScheduledPid :=
  ScheduledPid.new .CoolantTemp SchedulerConfig.default.base_rate_hz 0

/-- The coolant entry right after processing a boosting sample (`100 °C >
95 °C`) at time `0`. -/
def boostedSp : ScheduledPid :=
  (processPopped .default 0 coolantSp (.ok 100) 0).1

lemma popMin_sublist : ∀ {l : List ScheduledPid} {m : ScheduledPid}
    {r : List ScheduledPid}, popMin l = some (m, r) → r.Sublist l := by
  intro l
  induction l with
  | nil => intro m r h; simp [popMin] at h
  | cons x xs ih =>
      intro m r h
      simp only [popMin] at h
      rcases hp : popMin xs with _ | p <;> rw [hp] at h
      · cases h; exact List.nil_sublist _
      · obtain ⟨m0, r0⟩ := p
        dsimp only at h
        split_ifs at h with hb
        · cases h; exact List.sublist_cons_self x xs
        · cases h; exact (ih hp).cons₂ x

/-- **C5 (amended).** When the popped coolant entry carries a successful
response whose value is *strictly greater* than the boost threshold, the
entry's rate is *set* to `base_rate_hz * boost_multiplier` (not the
current rate times the multiplier), `last_coolant_temp` becomes the
sample, and `schedule_next` puts the next due time at
`now + 1/(base_rate_hz * boost_multiplier)`. -/
theorem coolant_boost_sets_rate_strict (cfg : SchedulerConfig)
    (lc : ℚ) (sp : ScheduledPid) (v now : ℚ)
    (hpid : sp.pid = .CoolantTemp) (hv : v > cfg.coolant_boost_threshold) :
    (processPopped cfg lc sp (.ok v) now).1.rate_hz =
        cfg.base_rate_hz * cfg.boost_multiplier ∧
      (processPopped cfg lc sp (.ok v) now).1.next_query =
        now + 1 / (cfg.base_rate_hz * cfg.boost_multiplier) ∧
      (processPopped cfg lc sp (.ok v) now).2 = v := by
  simp [processPopped, hpid, hv, ScheduledPid.schedule_next,
    ScheduledPid.interval]

/-- Witness for C5: a 100 °C sample (threshold 95 °C, defaults) reschedules
the coolant entry at `50 + 1/10` with rate `10`. -/
theorem coolant_boost_sets_rate_strict_witness :
    (processPopped .default 0 coolantSp (.ok 100) 50).1.rate_hz =
        SchedulerConfig.default.base_rate_hz *
          SchedulerConfig.default.boost_multiplier ∧
      (processPopped .default 0 coolantSp (.ok 100) 50).1.next_query =
        50 + 1 / (SchedulerConfig.default.base_rate_hz *
          SchedulerConfig.default.boost_multiplier) ∧
      (processPopped .default 0 coolantSp (.ok 100) 50).2 = 100 :=
  coolant_boost_sets_rate_strict SchedulerConfig.default 0 coolantSp 100 50
    rfl (by norm_num [SchedulerConfig.default])

/-- **C5 (counterexample).** A coolant sample exactly *at* the default
threshold (95 °C ≥ 95 °C, so the claim's `≥` condition holds) does *not*
boost: the guard is strict (`>`), so the next due time is `now + 1/r`,
not `now + 1/(r·mult)`. -/
theorem coolant_boost_at_threshold_counterexample :
    SchedulerConfig.default.coolant_boost_threshold ≤ 95 ∧
      (processPopped .default 0 coolantSp (.ok 95) 100).1.next_query =
        100 + 1 / 5 ∧
      (100 + 1 / 5 : ℚ) ≠ 100 + 1 / (5 * 2) := by
  refine ⟨by norm_num [SchedulerConfig.default], ?_, by norm_num⟩
  norm_num [processPopped, coolantSp, ScheduledPid.new, SchedulerConfig.default,
    ScheduledPid.schedule_next, ScheduledPid.interval]

/-- **C4 (amended).** Once boosted, the coolant rate is *not* restored on
the next sub-threshold sample: a coolant entry whose rate is already
`base·mult` keeps that rate when a non-boost sample (value not above the
threshold) is processed.  The boost reprograms only the popped coolant
entry: one loop iteration rebuilds the queue as the rescheduled entry plus
the remaining entries, which pass through unchanged (a sublist of the
original queue). -/
theorem coolant_boost_no_restore_others_untouched :
    (∀ (cfg : SchedulerConfig) (lc : ℚ) (sp : ScheduledPid) (v now : ℚ),
        sp.pid = .CoolantTemp →
        sp.rate_hz = cfg.base_rate_hz * cfg.boost_multiplier →
        ¬ v > cfg.coolant_boost_threshold →
        (processPopped cfg lc sp (.ok v) now).1.rate_hz =
          cfg.base_rate_hz * cfg.boost_multiplier) ∧
    (∀ (s : PidScheduler) (res : QueryResult) (now : ℚ)
        (sp : ScheduledPid) (rest : List ScheduledPid),
        popMin s.queue = some (sp, rest) →
        (s.step res now).queue =
            (processPopped s.config s.last_coolant_temp sp res now).1 :: rest ∧
          rest.Sublist s.queue) := by
  constructor
  · intro cfg lc sp v now hpid hrate hv
    simp [processPopped, hpid, hv, hrate, ScheduledPid.schedule_next,
      ScheduledPid.interval]
  · intro s res now sp rest hpop
    refine ⟨?_, popMin_sublist hpop⟩
    unfold PidScheduler.step
    rw [hpop]

/-- Witness for C4: after the boost at 100 °C, a 90 °C sample leaves the
boosted rate `10` in place; and a step on a one-entry queue rebuilds it as
the processed entry over the untouched (empty) remainder. -/
theorem coolant_boost_no_restore_others_untouched_witness :
    (processPopped .default 0 boostedSp (.ok 90) 1).1.rate_hz =
        SchedulerConfig.default.base_rate_hz *
          SchedulerConfig.default.boost_multiplier ∧
      ((PidScheduler.mk [coolantSp] .default true 0).step (.ok 100) 0).queue =
          (processPopped .default 0 coolantSp (.ok 100) 0).1 :: [] ∧
        List.Sublist [] [coolantSp] := by
  refine ⟨?_, ?_⟩
  · exact coolant_boost_no_restore_others_untouched.1 .default 0 boostedSp 90 1
      (by norm_num [boostedSp, processPopped, coolantSp, ScheduledPid.new,
        SchedulerConfig.default, ScheduledPid.schedule_next, ScheduledPid.interval])
      (by norm_num [boostedSp, processPopped, coolantSp, ScheduledPid.new,
        SchedulerConfig.default, ScheduledPid.schedule_next, ScheduledPid.interval])
      (by norm_num [SchedulerConfig.default])
  · exact coolant_boost_no_restore_others_untouched.2
      (PidScheduler.mk [coolantSp] .default true 0) (.ok 100) 0 coolantSp []
      (by simp [popMin])

/-- **C4 (counterexample).** With defaults, the coolant entry boosted by a
100 °C sample has rate `10`; processing the next non-boost sample (90 °C,
below the 95 °C threshold) leaves the rate at `10`, not the pre-boost base
rate `5`: no restore happens. -/
theorem coolant_no_restore_counterexample :
    boostedSp.rate_hz = 10 ∧
      (90 : ℚ) < SchedulerConfig.default.coolant_boost_threshold ∧
      (processPopped .default 0 boostedSp (.ok 90) 1).1.rate_hz = 10 ∧
      ((10 : ℚ) ≠ SchedulerConfig.default.base_rate_hz) := by
  refine ⟨?_, by norm_num [SchedulerConfig.default], ?_, by norm_num [SchedulerConfig.default]⟩ <;>
    norm_num [boostedSp, processPopped, coolantSp, ScheduledPid.new,
      SchedulerConfig.default, ScheduledPid.schedule_next, ScheduledPid.interval]

/-! ## Inference batcher (`crates/inference-engine/src/batcher.rs`)

Timed model of one batch-collection cycle of `InferenceBatcher::run`.
`arrivals` is the ordered stream of future arrival times (`ℚ` seconds) of
feature vectors on the channel; `t` is the current time.  A `recv` that
finds its item already queued returns at the current time; otherwise it
returns at the item's arrival time; `tokio::time::timeout(Δ, recv)` fails
(and the drain loop breaks) when no item is available within `Δ` of the
current time.  The classifier is modelled as instantaneous (latency `0`),
so every prediction of the batch is emitted at the drain's finish time. -/

/-- The `while batch.len() < batch_size` drain loop with per-`recv`
timeout `Δ`.  `fuel` is the remaining room in the batch
(`batch_size - len`).  Returns the arrival times collected, the time at
which the loop exits, and the arrivals left on the channel. -/
def drain (Δ : ℚ) : ℕ → ℚ → List ℚ → List ℚ × ℚ × List ℚ
  | 0, t, arrivals => ([], t, arrivals)
  | _ + 1, t, [] => ([], t + Δ, [])
  | fuel + 1, t, a :: rest =>
      if a ≤ t + Δ then
        let r := drain Δ fuel (max t a) rest
        (a :: r.1, r.2.1, r.2.2)
      else ([], t + Δ, a :: rest)

/-- One full collection cycle starting at time `t0`: block for the first
item, then drain up to `batch_size - 1` more with timeout `Δ` each.
Returns `none` when the channel stays empty (the blocking `recv` never
returns; on a closed channel the batcher stops instead).  Otherwise
returns the batch (arrival times, in submission order) and the submission
time. -/
def runCycle (batch_size : ℕ) (Δ : ℚ) (t0 : ℚ) :
    List ℚ → Option (List ℚ × ℚ)
  | [] => none
  | a :: rest =>
      let r := drain Δ (batch_size - 1) (max t0 a) rest
      some (a :: r.1, r.2.1)

lemma drain_finish_le {Δ : ℚ} (hΔ : 0 ≤ Δ) :
    ∀ (fuel : ℕ) (t : ℚ) (arrivals : List ℚ),
      (drain Δ fuel t arrivals).2.1 ≤ t + fuel * Δ := by
  intro fuel
  induction fuel with
  | zero => intro t arrivals; simp [drain]
  | succ n ih =>
      intro t arrivals
      cases arrivals with
      | nil =>
          simp only [drain]
          have : (0 : ℚ) ≤ n * Δ := by positivity
          push_cast
          linarith
      | cons a rest =>
          simp only [drain]
          split_ifs with ha
          · dsimp only
            have h1 := ih (max t a) rest
            have h2 : max t a ≤ t + Δ := max_le (by linarith) ha
            push_cast at h1 ⊢
            linarith
          · dsimp only
            have : (0 : ℚ) ≤ n * Δ := by positivity
            push_cast
            linarith

/-- **C1 (amended).** The drain applies the full timeout `Δ` to each
additional `recv`, not to the total elapsed time since the first item:
each of the at most `batch_size − 1` drain iterations can take up to `Δ`.
Hence a cycle starting at `t0` whose first item arrives at `a` submits its
batch — and so (up to classifier latency) emits every prediction of the
cycle — no later than `max t0 a + (batch_size − 1)·Δ`.  The claimed
per-item bound `arrival + Δ` does not hold (see the counterexample). -/
theorem batcher_cycle_latency_bound (batch_size : ℕ) (Δ t0 a : ℚ)
    (rest : List ℚ) (hΔ : 0 ≤ Δ) :
    ∀ batch tf, runCycle batch_size Δ t0 (a :: rest) = some (batch, tf) →
      tf ≤ max t0 a + (batch_size - 1 : ℕ) * Δ := by
  intro batch tf h
  simp only [runCycle] at h
  obtain ⟨-, rfl⟩ := Prod.mk.injEq .. ▸ (Option.some.injEq .. ▸ h)
  exact drain_finish_le hΔ (batch_size - 1) (max t0 a) rest

/-- Witness for C1: with `batch_size = 3`, `Δ = 5`, a cycle starting at
`0` with arrivals at `0, 4, 8` finishes at `8 ≤ max 0 0 + 2·5`. -/
theorem batcher_cycle_latency_bound_witness :
    runCycle 3 5 0 [0, 4, 8] = some ([0, 4, 8], 8) ∧
      (8 : ℚ) ≤ max (0 : ℚ) 0 + (3 - 1 : ℕ) * 5 := by
  have hrun : runCycle 3 5 0 [0, 4, 8] = some ([0, 4, 8], 8) := by
    norm_num [runCycle, drain]
  exact ⟨hrun, batcher_cycle_latency_bound 3 5 0 0 [4, 8] (by norm_num)
    [0, 4, 8] 8 hrun⟩

/-- **C1 (counterexample).** `batch_size = 3`, `Δ = 5`: items arriving at
`0, 4, 8` are all drained into one batch (each successive `recv` completes
within its own fresh `Δ`), which is submitted at `t = 8` — later than
`a + Δ = 5` for the vector that arrived at `a = 0`.  So the per-item bound
"emitted no later than `a + Δ` (+ classifier latency)" fails. -/
theorem batcher_per_item_bound_counterexample :
    runCycle 3 5 0 [0, 4, 8] = some ([0, 4, 8], 8) ∧
      (0 : ℚ) ∈ [(0 : ℚ), 4, 8] ∧ ¬ ((8 : ℚ) ≤ 0 + 5) := by
  refine ⟨by norm_num [runCycle, drain], by norm_num, by norm_num⟩

/-! ## Event fusion (`crates/event-fusion/src/lib.rs`)

The analysis records (`dms::DmsAnalysis`, `adas::AdasAnalysis`,
`camera_capture::imu::ImuData`) are embedded with the fields the fusion
engine reads plus their timestamps where the source carries one; purely
geometric payloads (bounding boxes, lane-line points, object lists) are
omitted as they are never read by `fuse`. -/

inductive Severity where
  | Low | Medium | High | Critical
  deriving Repr, DecidableEq

inductive DrowsinessLevel where
  | Normal | Mild | Moderate | High
  deriving Repr, DecidableEq

/-- The `#[repr]` discriminant used by `drowsiness_level as u8`. -/
def DrowsinessLevel.toU8 : DrowsinessLevel → ℕ
  | .Normal => 0
  | .Mild => 1
  | .Moderate => 2
  | .High => 3

inductive DistractionType where
  | LookingAway | PhoneUse | Eating | Smoking | Unknown
  deriving Repr, DecidableEq

structure DmsAnalysis where
  face_detected : Bool
  drowsiness_level : DrowsinessLevel
  distraction_type : Option DistractionType
  deriving Repr, DecidableEq

structure LaneState where
  lanes_detected : Bool
  departing : Bool
  signal_active : Bool
  deriving Repr, DecidableEq

structure AdasAnalysis where
  lane_state : LaneState
  deriving Repr, DecidableEq

structure ImuData where
  accel_x : ℚ
  accel_y : ℚ
  accel_z : ℚ
  gyro_x : ℚ
  gyro_y : ℚ
  gyro_z : ℚ
  temperature : ℚ
  g_force : ℚ
  timestamp_ns : ℕ
  deriving Repr, DecidableEq

structure ObdFrame where
  timestamp_ns : ℕ
  rpm : ℕ
  speed_kmh : ℕ
  brake_pedal : ℕ
  throttle : ℕ
  deriving Repr, DecidableEq

inductive FusedEvent where
  | Normal
  | HardBraking (severity : Severity) (decel_g : ℚ) (speed_before_kmh : ℚ)
  | EmergencyBraking (severity : Severity) (object_distance_m : ℚ)
      (reaction_time_ms : ℕ)
  | DrowsinessLaneDeparture (severity : Severity) (eyes_closed_ms : ℕ)
  | Crash (severity : Severity) (g_force : ℚ) (airbag_deployed : Bool)
  | SustainedDistraction (severity : Severity) (duration_ms : ℕ)
  | Speeding (current_kmh : ℕ) (limit_kmh : ℕ)
  deriving Repr, DecidableEq

/-- `SlidingWindow<T>`: a count-bounded deque; `push` drops the front when
at capacity, `back` is the newest element. -/
structure SlidingWindow (α : Type) where
  data : List α
  capacity : ℕ
  deriving Repr

def SlidingWindow.new (α : Type) (capacity : ℕ) : SlidingWindow α :=
  ⟨[], capacity⟩

def SlidingWindow.push {α : Type} (w : SlidingWindow α) (item : α) :
    SlidingWindow α :=
  if w.data.length ≥ w.capacity then
    { w with data := w.data.tail ++ [item] }
  else
    { w with data := w.data ++ [item] }

def SlidingWindow.back {α : Type} (w : SlidingWindow α) : Option α :=
  w.data.getLast?

structure FusionConfig where
  hard_brake_g : ℚ
  crash_g : ℚ
  speeding_threshold_kmh : ℕ
  deriving Repr, DecidableEq

def FusionConfig.default : FusionConfig :=
  ⟨mkRat 4 10, 3, 10⟩

structure EventFusion where
  obd_window : SlidingWindow ObdFrame
  dms_window : SlidingWindow DmsAnalysis
  adas_window : SlidingWindow AdasAnalysis
  imu_window : SlidingWindow ImuData
  config : FusionConfig
  driver_id : Option String

/-- `EventFusion::new` (window capacities 300/150/60/1000). -/
def EventFusion.new (config : FusionConfig) : EventFusion :=
  ⟨SlidingWindow.new _ 300, SlidingWindow.new _ 150,
   SlidingWindow.new _ 60, SlidingWindow.new _ 1000, config, none⟩

/-- `EventFusion::fuse`: check crash, then hard braking, then drowsiness +
lane departure, each on the newest (`back`) sample of the windows it
needs; first match wins, otherwise `None`.  The source reads no timestamp
anywhere in this function. -/
def EventFusion.fuse (s : EventFusion) : Option FusedEvent :=
  let crash : Option FusedEvent :=
    match s.imu_window.back with
    | some imu =>
        if imu.g_force > s.config.crash_g then
          some (.Crash .Critical imu.g_force false)
        else none
    | none => none
  match crash with
  | some e => some e
  | none =>
    let hard : Option FusedEvent :=
      match s.imu_window.back with
      | some imu =>
          if |imu.accel_x| > s.config.hard_brake_g then
            match s.obd_window.back with
            | some obd =>
                if obd.brake_pedal > 80 then
                  some (.HardBraking .Medium |imu.accel_x| (obd.speed_kmh : ℚ))
                else none
            | none => none
          else none
      | none => none
    match hard with
    | some e => some e
    | none =>
      match s.dms_window.back, s.adas_window.back with
      | some dms, some adas =>
          if dms.drowsiness_level.toU8 ≥ 2 ∧ adas.lane_state.departing = true then
            some (.DrowsinessLaneDeparture .High 0)
          else none
      | _, _ => none

/-- Events whose predicate requires the inertial source. -/
def FusedEvent.isInertial : FusedEvent → Prop
  | .Crash _ _ _ => True
  | .HardBraking _ _ _ => True
  | _ => False

/-- Events whose predicate requires the driver-state and road-scene
sources. -/
def FusedEvent.isDld : FusedEvent → Prop
  | .DrowsinessLaneDeparture _ _ => True
  | _ => False

lemma fuse_dld_cases {s : EventFusion} {e : FusedEvent}
    (h : (match s.dms_window.back, s.adas_window.back with
          | some dms, some adas =>
              if dms.drowsiness_level.toU8 ≥ 2 ∧ adas.lane_state.departing = true
              then some (FusedEvent.DrowsinessLaneDeparture .High 0)
              else none
          | _, _ => none) = some e) :
    ∃ d a, s.dms_window.back = some d ∧ s.adas_window.back = some a ∧
      d.drowsiness_level.toU8 ≥ 2 ∧ a.lane_state.departing = true ∧
      e = .DrowsinessLaneDeparture .High 0 := by
  rcases hd : s.dms_window.back with _ | d <;> rw [hd] at h
  · exact absurd h (by simp)
  · rcases ha : s.adas_window.back with _ | a <;> rw [ha] at h
    · exact absurd h (by simp)
    · dsimp only at h
      by_cases hc : d.drowsiness_level.toU8 ≥ 2 ∧ a.lane_state.departing = true
      · rw [if_pos hc] at h
        cases h
        exact ⟨d, a, rfl, rfl, hc.1, hc.2, rfl⟩
      · rw [if_neg hc] at h
        exact absurd h (by simp)

lemma fuse_some_cases {s : EventFusion} {e : FusedEvent} (h : s.fuse = some e) :
    (∃ i, s.imu_window.back = some i ∧ i.g_force > s.config.crash_g ∧
        e = .Crash .Critical i.g_force false) ∨
      (∃ i obd, s.imu_window.back = some i ∧
        |i.accel_x| > s.config.hard_brake_g ∧ s.obd_window.back = some obd ∧
        obd.brake_pedal > 80 ∧
        e = .HardBraking .Medium |i.accel_x| (obd.speed_kmh : ℚ)) ∨
      (∃ d a, s.dms_window.back = some d ∧ s.adas_window.back = some a ∧
        d.drowsiness_level.toU8 ≥ 2 ∧ a.lane_state.departing = true ∧
        e = .DrowsinessLaneDeparture .High 0) := by
  unfold EventFusion.fuse at h
  rcases hi : s.imu_window.back with _ | imu <;> rw [hi] at h <;> (try dsimp only at h)
  · exact Or.inr (Or.inr (fuse_dld_cases h))
  · by_cases hg : imu.g_force > s.config.crash_g
    · rw [if_pos hg] at h
      try dsimp only at h
      cases h
      exact Or.inl ⟨imu, rfl, hg, rfl⟩
    · rw [if_neg hg] at h
      try dsimp only at h
      by_cases hb : |imu.accel_x| > s.config.hard_brake_g
      · rw [if_pos hb] at h
        try dsimp only at h
        rcases ho : s.obd_window.back with _ | obd <;> rw [ho] at h <;>
          (try dsimp only at h)
        · exact Or.inr (Or.inr (fuse_dld_cases h))
        · by_cases hp : obd.brake_pedal > 80
          · rw [if_pos hp] at h
            try dsimp only at h
            cases h
            exact Or.inr (Or.inl ⟨imu, obd, rfl, hb, rfl, hp, rfl⟩)
          · rw [if_neg hp] at h
            try dsimp only at h
            exact Or.inr (Or.inr (fuse_dld_cases h))
      · rw [if_neg hb] at h
        try dsimp only at h
        exact Or.inr (Or.inr (fuse_dld_cases h))

/-- **C2 (amended).** `EventFusion::fuse` enforces no staleness budget:
every predicate is evaluated on the newest sample of its required sources
regardless of the sample's age — in particular the newest inertial sample
triggers `Crash` whenever `g_force > crash_g`, however old it is — and a
predicate fails to hold only when a required source's window holds no
sample at all (empty inertial window ⟹ no `Crash`/`HardBraking`; empty
driver-state or road-scene window ⟹ no `DrowsinessLaneDeparture`). -/
theorem fuse_no_staleness_budget (s : EventFusion) :
    (∀ i, s.imu_window.back = some i → i.g_force > s.config.crash_g →
        s.fuse = some (.Crash .Critical i.g_force false)) ∧
      (s.imu_window.back = none → ∀ e, s.fuse = some e → ¬ e.isInertial) ∧
      (s.dms_window.back = none ∨ s.adas_window.back = none →
        ∀ e, s.fuse = some e → ¬ e.isDld) := by
  refine ⟨?_, ?_, ?_⟩
  · intro i hi hg
    unfold EventFusion.fuse
    simp only [hi, if_pos hg]
  · intro hn e he
    rcases fuse_some_cases he with ⟨i, hi, -⟩ | ⟨i, o, hi, -⟩ |
        ⟨d, a, -, -, -, -, he'⟩
    · rw [hn] at hi; exact absurd hi (by simp)
    · rw [hn] at hi; exact absurd hi (by simp)
    · subst he'; simp [FusedEvent.isInertial]
  · intro hor e he
    rcases fuse_some_cases he with ⟨i, -, -, he'⟩ | ⟨i, o, -, -, -, -, he'⟩ |
        ⟨d, a, hd, ha, -⟩
    · subst he'; simp [FusedEvent.isDld]
    · subst he'; simp [FusedEvent.isDld]
    · rcases hor with h0 | h0
      · rw [h0] at hd; exact absurd hd (by simp)
      · rw [h0] at ha; exact absurd ha (by simp)

/-- An inertial sample with `g_force = 3.2` captured at `t = 0` ns. -/
def staleImu : ImuData :=
  ⟨0, 0, 0, 0, 0, 0, 0, mkRat 16 5, 0⟩

/-- A fusion state (default config) whose only sample is `staleImu`. -/
def fusionStale : EventFusion :=
  { EventFusion.new .default with
    imu_window := (SlidingWindow.new ImuData 1000).push staleImu }

/-- **C2 (counterexample).** At fuse time `t = 1 s` (`10⁹ ns`) the newest
inertial sample of `fusionStale` is `1 s` old — far beyond the claimed
50 ms inertial staleness budget — yet `fuse` still returns `Crash` for it:
the predicate is evaluated, not treated as unmet. -/
theorem fuse_ignores_staleness_counterexample :
    fusionStale.imu_window.back = some staleImu ∧
      1000000000 - staleImu.timestamp_ns > 50000000 ∧
      fusionStale.fuse = some (.Crash .Critical (mkRat 16 5) false) := by
  refine ⟨by decide, by decide, by decide⟩

/-- Witness for C2 (amended): the first conjunct applied to `fusionStale`
and its (arbitrarily old) newest inertial sample. -/
theorem fuse_no_staleness_budget_witness :
    fusionStale.fuse = some (.Crash .Critical staleImu.g_force false) :=
  (fuse_no_staleness_budget fusionStale).1 staleImu (by decide) (by decide)

/-! ## Normalizer (`crates/data-validator/src/normalizer.rs`)

State fields (`mean`, `variance`, `alpha`, running `min`/`max`) are `ℚ`;
the value returned by `normalize` is `ℝ`, since the z-score path computes
`variance.sqrt()`.  `f64::MAX` is exactly `2^1024 − 2^971` and
`f64::MIN = −f64::MAX`. -/

def f64MAX : ℚ := 2 ^ 1024 - 2 ^ 971

inductive NormalizationMethod where
  | ZScore | MinMax | None
  deriving Repr, DecidableEq

structure Normalizer where
  mean : ℚ
  variance : ℚ
  alpha : ℚ
  initialized : Bool
  method : NormalizationMethod
  min : ℚ
  max : ℚ
  deriving Repr, DecidableEq

/-- `alpha.clamp(0.0, 1.0)`. -/
def clamp01 (a : ℚ) : ℚ :=
  if a < 0 then 0 else if a > 1 then 1 else a

/-- `Normalizer::new`. -/
def Normalizer.new (method : NormalizationMethod) (alpha : ℚ) : Normalizer :=
  ⟨0, 1, clamp01 alpha, false, method, f64MAX, -f64MAX⟩

/-- `Normalizer::normalize`: update running `min`/`max`; on the first
sample initialize (`mean := value`, `variance := 1`) and return `0`;
otherwise apply the EWMA updates and return the method's output computed
from the updated state. -/
noncomputable def Normalizer.normalize (s : Normalizer) (value : ℚ) :
    ℝ × Normalizer :=
  let s := { s with min := Min.min s.min value, max := Max.max s.max value }
  if s.initialized = false then
    (0, { s with mean := value, variance := 1, initialized := true })
  else
    let delta := value - s.mean
    let mean := s.mean + s.alpha * delta
    let variance := (1 - s.alpha) * (s.variance + s.alpha * delta * delta)
    let s := { s with mean := mean, variance := variance }
    match s.method with
    | .ZScore =>
        let std_dev := Max.max (Real.sqrt (variance : ℝ)) ((mkRat 1 10000 : ℚ) : ℝ)
        (((value - mean : ℚ) : ℝ) / std_dev, s)
    | .MinMax =>
        let range := Max.max (s.max - s.min) (mkRat 1 10000)
        (((value - s.min : ℚ) : ℝ) / ((range : ℚ) : ℝ), s)
    | .None => (((value : ℚ) : ℝ), s)

/-- Feed a list of samples through `normalize`, collecting the outputs. -/
noncomputable def Normalizer.run (s : Normalizer) :
    List ℚ → List ℝ × Normalizer
  | [] => ([], s)
  | x :: xs =>
      let r := s.normalize x
      let rr := r.2.run xs
      (r.1 :: rr.1, rr.2)

lemma normalize_uninitialized {s : Normalizer} (h : s.initialized = false)
    (x : ℚ) :
    (s.normalize x).1 = 0 ∧
      (s.normalize x).2.mean = x ∧ (s.normalize x).2.variance = 1 ∧
      (s.normalize x).2.initialized = true ∧
      (s.normalize x).2.alpha = s.alpha ∧
      (s.normalize x).2.method = s.method := by
  simp [Normalizer.normalize, h]

lemma normalize_initialized {s : Normalizer} (h : s.initialized = true)
    (x : ℚ) :
    (s.normalize x).2.mean = s.mean + s.alpha * (x - s.mean) ∧
      (s.normalize x).2.variance =
        (1 - s.alpha) * (s.variance + s.alpha * (x - s.mean) * (x - s.mean)) ∧
      (s.normalize x).2.initialized = true ∧
      (s.normalize x).2.alpha = s.alpha ∧
      (s.normalize x).2.method = s.method := by
  unfold Normalizer.normalize
  rw [h]
  dsimp only
  rcases hm : s.method <;> simp [hm]

lemma normalize_alpha1_zscore {s : Normalizer} (h : s.initialized = true)
    (hα : s.alpha = 1) (hm : s.method = .ZScore) (x : ℚ) :
    (s.normalize x).1 = 0 := by
  unfold Normalizer.normalize
  rw [h]
  dsimp only
  rw [hm]
  dsimp only
  have hz : (x - (s.mean + s.alpha * (x - s.mean)) : ℚ) = 0 := by
    rw [hα]; ring
  rw [hz]
  simp

lemma run_alpha1_zscore (s : Normalizer) (hα : s.alpha = 1)
    (hm : s.method = .ZScore) (xs : List ℚ) :
    (s.run xs).1 = List.replicate xs.length 0 := by
  induction xs generalizing s with
  | nil => simp [Normalizer.run]
  | cons x xs ih =>
      simp only [Normalizer.run, List.length_cons, List.replicate_succ,
        List.cons.injEq]
      rcases hinit : s.initialized with _ | _
      · obtain ⟨h0, -, -, -, ha, hm'⟩ := normalize_uninitialized hinit x
        exact ⟨h0, ih _ (ha.trans hα) (hm'.trans hm)⟩
      · obtain ⟨-, -, -, ha, hm'⟩ := normalize_initialized hinit x
        exact ⟨normalize_alpha1_zscore hinit hα hm x,
          ih _ (ha.trans hα) (hm'.trans hm)⟩

lemma run_alpha0_frozen (s : Normalizer) (hα : s.alpha = 0)
    (hinit : s.initialized = true) (xs : List ℚ) :
    (s.run xs).2.mean = s.mean ∧ (s.run xs).2.variance = s.variance := by
  induction xs generalizing s with
  | nil => exact ⟨rfl, rfl⟩
  | cons x xs ih =>
      obtain ⟨hmean, hvar, hinit', ha, -⟩ := normalize_initialized hinit x
      have hmean0 : (s.normalize x).2.mean = s.mean := by rw [hmean, hα]; ring
      have hvar0 : (s.normalize x).2.variance = s.variance := by
        rw [hvar, hα]; ring
      obtain ⟨h1, h2⟩ := ih (s.normalize x).2 (ha.trans hα) hinit'
      exact ⟨h1.trans hmean0, h2.trans hvar0⟩

/-- **C8.** For the z-score normalizer: with smoothing `α = 1` every
sample of every input sequence normalizes to `0` (the EWMA mean tracks the
input instantly); with `α = 0`, once the first sample has initialized the
state to `mean = value`, `variance = 1`, no later `normalize` call changes
the stored mean or variance. -/
theorem normalizer_alpha_extremes :
    (∀ xs : List ℚ,
        ((Normalizer.new .ZScore 1).run xs).1 = List.replicate xs.length 0) ∧
      (∀ (x : ℚ) (xs : List ℚ),
        (((Normalizer.new .ZScore 0).run (x :: xs)).2.mean = x ∧
          ((Normalizer.new .ZScore 0).run (x :: xs)).2.variance = 1)) := by
  constructor
  · intro xs
    exact run_alpha1_zscore _ (by norm_num [Normalizer.new, clamp01]) rfl xs
  · intro x xs
    have hinit0 : (Normalizer.new .ZScore 0).initialized = false := rfl
    obtain ⟨-, hmean, hvar, hinit, ha, -⟩ := normalize_uninitialized hinit0 x
    simp only [Normalizer.run]
    have hα : ((Normalizer.new .ZScore 0).normalize x).2.alpha = 0 := by
      rw [ha]; norm_num [Normalizer.new, clamp01]
    obtain ⟨h1, h2⟩ := run_alpha0_frozen _ hα hinit xs
    exact ⟨h1.trans hmean, h2.trans hvar⟩

/-! ## Median filter (`crates/data-validator/src/filter.rs`) -/

structure MedianFilter where
  window : List ℚ
  size : ℕ
  position : ℕ
  filled : Bool
  deriving Repr, DecidableEq

/-- `MedianFilter::new` (the source asserts `size` odd and positive). -/
def MedianFilter.new (size : ℕ) : MedianFilter :=
  ⟨List.replicate size 0, size, 0, false⟩

/-- `MedianFilter::filter`: overwrite the slot at `position`, advance
`position` circularly, mark `filled` when `position` wrapped to `0`;
before the window is filled pass the input through, afterwards return the
middle element of a sorted copy of the window.  (`sorted[size / 2]` is
modelled with `getD`; the index is always in range since `size ≥ 1`.) -/
def MedianFilter.filter (f : MedianFilter) (value : ℚ) : ℚ × MedianFilter :=
  let window := f.window.set f.position value
  let position := (f.position + 1) % f.size
  let filled := f.filled || decide (position = 0)
  if filled = false then (value, ⟨window, f.size, position, filled⟩)
  else ((window.insertionSort (· ≤ ·)).getD (f.size / 2) 0,
        ⟨window, f.size, position, filled⟩)

/-- Feed a list of samples through `filter`, collecting the outputs. -/
def MedianFilter.run (f : MedianFilter) : List ℚ → List ℚ × MedianFilter
  | [] => ([], f)
  | x :: xs =>
      let r := f.filter x
      let rr := r.2.run xs
      (r.1 :: rr.1, rr.2)

/-- The last `w` elements of a list. -/
def lastN (w : ℕ) (xs : List ℚ) : List ℚ :=
  xs.drop (xs.length - w)

/-- The median as the filter computes it: middle element of the sorted
copy. -/
def sortedMedian (w : ℕ) (l : List ℚ) : ℚ :=
  (l.insertionSort (· ≤ ·)).getD (w / 2) 0

/-- Reference window contents after feeding `xs` into a fresh filter of
size `w`: during pre-fill, the inputs followed by the remaining zero
slots; afterwards, the last `w` inputs rotated so that the slot at
`position = xs.length % w` holds the oldest of them. -/
def midWindow (w : ℕ) (xs : List ℚ) : List ℚ :=
  if xs.length < w then xs ++ List.replicate (w - xs.length) 0
  else (lastN w xs).drop (w - xs.length % w) ++ (lastN w xs).take (w - xs.length % w)

/-- Reference filter state after feeding `xs`. -/
def midState (w : ℕ) (xs : List ℚ) : MedianFilter :=
  ⟨midWindow w xs, w, xs.length % w, decide (w ≤ xs.length)⟩

lemma insertionSort_eq_of_perm {l₁ l₂ : List ℚ} (h : l₁.Perm l₂) :
    l₁.insertionSort (· ≤ ·) = l₂.insertionSort (· ≤ ·) :=
  List.eq_of_perm_of_sorted
    ((List.perm_insertionSort _ l₁).trans
      (h.trans (List.perm_insertionSort _ l₂).symm))
    (List.sorted_insertionSort _ l₁) (List.sorted_insertionSort _ l₂)

lemma sortedMedian_perm {l₁ l₂ : List ℚ} (h : l₁.Perm l₂) (w : ℕ) :
    sortedMedian w l₁ = sortedMedian w l₂ := by
  unfold sortedMedian
  have hs : l₁.insertionSort (· ≤ ·) = l₂.insertionSort (· ≤ ·) :=
    List.eq_of_perm_of_sorted
      ((List.perm_insertionSort _ l₁).trans
        (h.trans (List.perm_insertionSort _ l₂).symm))
      (List.sorted_insertionSort _ l₁) (List.sorted_insertionSort _ l₂)
  rw [hs]

lemma MedianFilter.run_append (f : MedianFilter) (xs ys : List ℚ) :
    f.run (xs ++ ys) =
      ((f.run xs).1 ++ ((f.run xs).2.run ys).1, ((f.run xs).2.run ys).2) := by
  induction xs generalizing f with
  | nil => simp [MedianFilter.run]
  | cons x xs ih => simp [MedianFilter.run, ih]

lemma new_eq_midState (w : ℕ) (hw : 1 ≤ w) :
    MedianFilter.new w = midState w [] := by
  unfold MedianFilter.new midState midWindow
  simp only [List.length_nil, List.nil_append, Nat.sub_zero, Nat.zero_mod]
  rw [if_pos (show 0 < w from hw)]
  have hd : decide (w ≤ 0) = false := by simp; omega
  rw [hd]

lemma filter_midState (w : ℕ) (hw : 1 ≤ w) (p : List ℚ) (x : ℚ) :
    (midState w p).filter x =
      ((if p.length + 1 < w then x else sortedMedian w (lastN w (p ++ [x]))),
        midState w (p ++ [x])) := by
  by_cases hA : p.length + 1 < w
  · -- pre-fill: the write lands in the zero area, output passes through
    have hplt : p.length < w := by omega
    have hmod : p.length % w = p.length := Nat.mod_eq_of_lt hplt
    have hmod1 : (p.length + 1) % w = p.length + 1 := Nat.mod_eq_of_lt hA
    have hwin : (midWindow w p).set (p.length % w) x = midWindow w (p ++ [x]) := by
      unfold midWindow
      rw [if_pos hplt, if_pos (show (p ++ [x]).length < w by simp; omega)]
      rw [hmod, List.set_append_right _ _ (Nat.le_refl p.length), Nat.sub_self]
      have hrep : w - p.length = (w - (p.length + 1)) + 1 := by omega
      rw [hrep, List.replicate_succ, List.set_cons_zero, List.length_append]
      simp
    have hfill0 : decide (w ≤ p.length) = false := decide_eq_false (by omega)
    have hfill1 : decide ((p.length % w + 1) % w = 0) = false := by
      rw [hmod, hmod1]; exact decide_eq_false (by omega)
    unfold MedianFilter.filter
    dsimp only [midState]
    rw [hfill0, hfill1, Bool.or_self, if_pos rfl, hwin, hmod, hmod1, if_pos hA]
    have hlen : (p ++ [x]).length = p.length + 1 := by simp
    have hfill2 : decide (w ≤ p.length + 1) = false := decide_eq_false (by omega)
    simp only [midState, hlen, hmod1, hfill2]
  · by_cases hB : p.length + 1 = w
    · -- the w-th sample: the window fills and the median branch is taken
      have hplt : p.length < w := by omega
      have hmod : p.length % w = p.length := Nat.mod_eq_of_lt hplt
      have hwin : (midWindow w p).set (p.length % w) x = p ++ [x] := by
        unfold midWindow
        rw [if_pos hplt, hmod,
          List.set_append_right _ _ (Nat.le_refl p.length), Nat.sub_self]
        have hrep : w - p.length = 1 := by omega
        rw [hrep]
        simp
      have hlen : (p ++ [x]).length = w := by simp; omega
      have hlast : lastN w (p ++ [x]) = p ++ [x] := by
        unfold lastN
        rw [hlen, Nat.sub_self, List.drop_zero]
      have hmw : midWindow w (p ++ [x]) = p ++ [x] := by
        unfold midWindow
        rw [if_neg (by omega), hlast, hlen, Nat.mod_self, Nat.sub_zero]
        rw [List.drop_eq_nil_of_le (by rw [hlen]),
          List.take_of_length_le (by rw [hlen]), List.nil_append]
      have hmod1 : (p.length % w + 1) % w = 0 := by
        rw [hmod]
        rw [hB, Nat.mod_self]
      have hfill1 : decide ((p.length % w + 1) % w = 0) = true := by
        rw [hmod1]; rfl
      unfold MedianFilter.filter
      dsimp only [midState]
      rw [hfill1, Bool.or_true, if_neg (by simp), hwin, hmod1, if_neg hA]
      rw [hmw, hlen, Nat.mod_self]
      have hfill2 : decide (w ≤ w) = true := by simp
      rw [hfill2]
      unfold sortedMedian
      rw [hlast]
    · -- steady state: the oldest of the last w inputs is overwritten
      have hge : w ≤ p.length := by omega
      have hr : p.length % w < w := Nat.mod_lt _ (by omega)
      have hLlen : (lastN w p).length = w := by
        unfold lastN
        rw [List.length_drop]
        omega
      have hDlen : ((lastN w p).drop (w - p.length % w)).length = p.length % w := by
        rw [List.length_drop, hLlen]; omega
      have hTpos : 0 < ((lastN w p).take (w - p.length % w)).length := by
        rw [List.length_take, hLlen]; omega
      have hset : (midWindow w p).set (p.length % w) x =
          (lastN w p).drop (w - p.length % w) ++
            x :: ((lastN w p).drop 1).take (w - p.length % w - 1) := by
        unfold midWindow
        rw [if_neg (by omega)]
        rw [List.set_append_right _ _ (by rw [hDlen])]
        rw [hDlen, Nat.sub_self]
        rw [List.set_eq_take_append_cons_drop, if_pos hTpos]
        rw [List.take_zero, List.nil_append]
        rw [List.drop_take]
      have hL' : lastN w (p ++ [x]) = (lastN w p).drop 1 ++ [x] := by
        unfold lastN
        rw [List.length_append, List.length_singleton,
          List.drop_append_of_le_length (by omega), List.drop_drop]
        have e : p.length + 1 - w = p.length - w + 1 := by omega
        rw [e]
      have hL'len : (lastN w (p ++ [x])).length = w := by
        rw [hL', List.length_append, List.length_drop, hLlen,
          List.length_singleton]
        omega
      have hmodstep : (p.length % w + 1) % w = (p.length + 1) % w :=
        Nat.mod_add_mod p.length w 1
      have hrot : midWindow w (p ++ [x]) =
          (lastN w (p ++ [x])).rotate (w - (p.length + 1) % w) := by
        unfold midWindow
        rw [if_neg (by simp; omega)]
        rw [List.rotate_eq_drop_append_take (by rw [hL'len]; omega)]
        rw [List.length_append, List.length_singleton]
      have hfillT : decide (w ≤ p.length) = true := decide_eq_true hge
      have hfill2 : decide (w ≤ (p ++ [x]).length) = true := by
        rw [List.length_append, List.length_singleton]
        exact decide_eq_true (by omega)
      by_cases hr1 : p.length % w + 1 < w
      · -- position does not wrap
        have hr' : (p.length + 1) % w = p.length % w + 1 := by
          rw [← hmodstep]; exact Nat.mod_eq_of_lt hr1
        have hmw' : midWindow w (p ++ [x]) =
            (lastN w p).drop (w - p.length % w) ++
              x :: ((lastN w p).drop 1).take (w - p.length % w - 1) := by
          unfold midWindow
          rw [if_neg (by simp; omega)]
          rw [List.length_append, List.length_singleton, hr', hL']
          rw [List.drop_append_of_le_length (by rw [List.length_drop, hLlen]; omega)]
          rw [List.take_append_of_le_length (by rw [List.length_drop, hLlen]; omega)]
          rw [List.drop_drop]
          have e1 : 1 + (w - (p.length % w + 1)) = w - p.length % w := by omega
          have e2 : w - (p.length % w + 1) = w - p.length % w - 1 := by omega
          rw [e1, e2, List.append_assoc, List.singleton_append]
        have hperm : (List.drop (w - p.length % w) (lastN w p) ++
            x :: List.take (w - p.length % w - 1)
              (List.drop 1 (lastN w p))).Perm (lastN w (p ++ [x])) := by
          rw [← hmw', hrot]; exact List.rotate_perm _ _
        unfold MedianFilter.filter
        dsimp only [midState]
        rw [hfillT, Bool.true_or, if_neg (by simp), hset, if_neg hA]
        rw [Prod.mk.injEq]
        refine ⟨?_, ?_⟩
        · unfold sortedMedian
          rw [insertionSort_eq_of_perm hperm]
        · have hfill3 : decide (w ≤ p.length + 1) = true :=
            decide_eq_true (by omega)
          rw [hmw', List.length_append, List.length_singleton, ← hmodstep,
            hfill3]
      · -- position wraps to 0
        have hrw : p.length % w + 1 = w := by omega
        have hr' : (p.length + 1) % w = 0 := by
          rw [← hmodstep, hrw, Nat.mod_self]
        have hwr1 : w - p.length % w = 1 := by omega
        have hmw' : midWindow w (p ++ [x]) = (lastN w p).drop 1 ++ [x] := by
          unfold midWindow
          rw [if_neg (by simp; omega)]
          rw [List.length_append, List.length_singleton, hr', Nat.sub_zero]
          rw [List.drop_eq_nil_of_le (by rw [hL'len]),
            List.take_of_length_le (by rw [hL'len]), List.nil_append, hL']
        have hset2 : (midWindow w p).set (p.length % w) x =
            (lastN w p).drop 1 ++ [x] := by
          rw [hset, hwr1]
          simp
        have hperm : (List.drop 1 (lastN w p) ++ [x]).Perm
            (lastN w (p ++ [x])) := by
          rw [← hmw', hrot]; exact List.rotate_perm _ _
        unfold MedianFilter.filter
        dsimp only [midState]
        rw [hfillT, Bool.true_or, if_neg (by simp), hset2, if_neg hA]
        rw [Prod.mk.injEq]
        refine ⟨?_, ?_⟩
        · unfold sortedMedian
          rw [insertionSort_eq_of_perm hperm]
        · have hfill3 : decide (w ≤ p.length + 1) = true :=
            decide_eq_true (by omega)
          rw [hmw', List.length_append, List.length_singleton, ← hmodstep,
            hfill3]

lemma run_midState (w : ℕ) (hw : 1 ≤ w) (xs : List ℚ) :
    ((MedianFilter.new w).run xs).2 = midState w xs := by
  induction xs using List.reverseRecOn with
  | nil => simpa [MedianFilter.run] using new_eq_midState w hw
  | append_singleton xs x ih =>
      rw [MedianFilter.run_append]
      dsimp only
      rw [ih]
      have := filter_midState w hw xs x
      simp [MedianFilter.run, this]

/-- **C6 (amended).** For every odd window size `w ≥ 1` and every already
processed prefix `p`, the next `filter` call passes the input through when
it is among the first `w − 1` samples, and from the `w`-th sample onward
(not the `(w+1)`-th) returns the median of the last `w` inputs.  The
concrete outputs claimed for the window-5 example are unchanged, since
there the median of the first five inputs happens to equal the fifth
input. -/
theorem medianFilter_output_characterization (w : ℕ) (hw : 1 ≤ w)
    (hodd : w % 2 = 1) (p : List ℚ) (x : ℚ) :
    (((MedianFilter.new w).run p).2.filter x).1 =
      if p.length + 1 < w then x
      else sortedMedian w (lastN w (p ++ [x])) := by
  rw [run_midState w hw p]
  rw [filter_midState w hw p x]

/-- Witness for C6: the sixth call on the window-5 example returns the
median `11` of the last five inputs `[11, 10, 100, 10, 11]`, as the claim's
concrete example states. -/
theorem medianFilter_output_characterization_witness :
    (((MedianFilter.new 5).run [10, 11, 10, 100, 10]).2.filter 11).1 =
        sortedMedian 5 (lastN 5 [10, 11, 10, 100, 10, 11]) ∧
      sortedMedian 5 (lastN 5 [10, 11, 10, 100, 10, 11]) = 11 := by
  constructor
  · have h := medianFilter_output_characterization 5 (by decide) (by decide)
      [10, 11, 10, 100, 10] 11
    simpa using h
  · decide

/-- **C6 (counterexample).** With window size `3` and inputs `[1, 2, 0]`,
the third (= `w`-th) call already returns the median `1` of the first
three inputs, not the raw input `0`: pre-fill passthrough covers only the
first `w − 1` samples, not the first `w` as claimed. -/
theorem medianFilter_prefill_counterexample :
    ((MedianFilter.new 3).run [1, 2, 0]).1 = [1, 2, 1] ∧ ((1 : ℚ) ≠ 0) := by
  constructor
  · decide
  · norm_num

end SmartDm
